import Mathlib

/-!
Verification of the page-content structuring and reconstruction pipeline of
`translate_pdf.py` (PDF → Word translator).

Modelling conventions (shallow embedding of the Python source):
* Python strings are sequences of code points, modelled as `List Char`.
* Page coordinates (`bbox` entries) are modelled as `Int`.  The geometric
  logic of the source only compares coordinates and subtracts them, so the
  embedding is faithful for integer-valued boxes.
* Python's whitespace class (used by `str.strip()` and the whitespace class
  of the regular expressions) is modelled by its ASCII core `pySpace`, and
  the digit class by ASCII digits; neither the claims nor the source depend
  on the non-ASCII members of those classes.
* `sorted(..., key=...)` is Python's stable ascending sort; it is modelled by
  a stable insertion sort `sortByKey`, proved sorted and stable below (a
  stable sort by a key is extensionally unique, so this is faithful).
* The external translator (tokenizer + model + decode) is modelled as an
  oracle `Nat → Except Unit (List Char)` giving, for each attempt index,
  either a raised error or the decoded candidate string.
* The MD5 fingerprint of image bytes is modelled as an injective function of
  the byte payload (`get_image_key` is the identity on the byte list).
* The quality threshold `0.15` and the character ratio are modelled over `ℚ`.
* Structured items carry the source text of each translation unit; the
  translation gate itself (`translate_text` and the caller-side fallback
  `final_text`) is modelled separately, as in the source, where it is an
  independent function applied to each unit.
-/

namespace PdfTranslate

/-- ASCII core of Python's whitespace class, as used by `str.strip()` and by
the whitespace class of the list-marker regular expressions. -/
def pySpace (c : Char) : Bool :=
  c = ' ' || c = '\t' || c = '\n' || c = '\x0b' || c = '\x0c' || c = '\r'

/-- Python `str.strip()`: remove leading and trailing whitespace. -/
def pyStrip (s : List Char) : List Char :=
  (((s.dropWhile pySpace).reverse.dropWhile pySpace)).reverse

/-- Bounding box `(x0, y0, x1, y1)`: left, top, right, bottom. -/
structure BBox where
  x0 : Int
  y0 : Int
  x1 : Int
  y1 : Int
deriving DecidableEq

/-- One positioned run of text: `span["text"]` and `span["bbox"]`. -/
structure Span where
  text : List Char
  bbox : BBox
deriving DecidableEq

/-- One visual text line: `line["spans"]`. -/
structure Line where
  spans : List Span
deriving DecidableEq

/-- An extractor block: `block["type"]` (0 = text, 1 = image), its bbox, its
lines (for text blocks), and the resolved image byte payload (for image
blocks; resolution of an xref through the document's image table is done by
the external extractor and is outside this model). -/
structure Block where
  btype : Nat
  bbox : BBox
  lines : List Line
  image : Option (List Nat)
deriving DecidableEq

/-- Stable insertion by an integer key: the new element goes before the first
existing element whose key is ≥ its own. -/
def insertByKey (key : α → Int) (x : α) : List α → List α
  | [] => [x]
  | y :: ys => if key x ≤ key y then x :: y :: ys else y :: insertByKey key x ys

/-- Stable ascending sort by an integer key, modelling Python `sorted` with a
`key=` function (Python's sort is stable). -/
def sortByKey (key : α → Int) : List α → List α
  | [] => []
  | x :: xs => insertByKey key x (sortByKey key xs)

/-- Source line 69: `sorted(spans, key=lambda s: s["bbox"][0])`. -/
def sortSpansByX0 (spans : List Span) : List Span :=
  sortByKey (fun s => s.bbox.x0) spans

/-- Source line 154: `blocks.sort(key=lambda b: b["bbox"][1])`. -/
def sortBlocksByY0 (blocks : List Block) : List Block :=
  sortByKey (fun b => b.bbox.y0) blocks

/-- Loop body of `join_spans` (source lines 72–78): `text` and `last_right`
are the running accumulator and right edge. -/
def joinSpansLoop (gapThreshold : Int) (text : List Char) (lastRight : Int) :
    List Span → List Char
  | [] => text
  | s :: rest =>
    let text' := if s.bbox.x0 - lastRight > gapThreshold
      then text ++ ' ' :: s.text else text ++ s.text
    joinSpansLoop gapThreshold text' s.bbox.x1 rest

/-- `join_spans(spans, gap_threshold)` (source lines 61–79): reassemble a
line's text from its spans, sorted by `x0`, inserting a single space where
the gap from the previous right edge exceeds the threshold.  The source
returns `""` for an empty span list before sorting; sorting the empty list
gives the same result. -/
def join_spans (spans : List Span) (gapThreshold : Int) : List Char :=
  match sortSpansByX0 spans with
  | [] => []
  | s :: rest => joinSpansLoop gapThreshold s.text s.bbox.x1 rest

/-- Statement of the Span Reassembler claim, following its words: the result
is the concatenation of the span texts in ascending `x0` order, where each
span after the first contributes one leading space exactly when its `x0`
minus the previous span's `x1` is strictly greater than the threshold (the
running right edge is always the previous span's `x1`). -/
def joinSpansClaim (spans : List Span) (gapThreshold : Int) : List Char :=
  match sortSpansByX0 spans with
  | [] => []
  | s :: rest =>
    s.text ++ ((s :: rest).zip rest).flatMap (fun p =>
      if p.2.bbox.x0 - p.1.bbox.x1 > gapThreshold then ' ' :: p.2.text
      else p.2.text)

/-- Join a list of strings with a single space between consecutive entries,
as the cell accumulator of `merge_spans_for_table` does. -/
def spaceJoin : List (List Char) → List Char
  | [] => []
  | t :: ts => t ++ ts.flatMap (fun u => ' ' :: u)

/-- Loop body of `merge_spans_for_table` (source lines 91–99): `cells` holds
the finished cells, `curText` and `curEnd` the current cell's accumulated
text and right edge. -/
def mergeSpansLoop (gapThreshold : Int) (cells : List (List Char))
    (curText : List Char) (curEnd : Int) : List Span → List (List Char)
  | [] => cells ++ [pyStrip curText]
  | s :: rest =>
    if s.bbox.x0 - curEnd < gapThreshold then
      mergeSpansLoop gapThreshold cells (curText ++ ' ' :: s.text) s.bbox.x1 rest
    else
      mergeSpansLoop gapThreshold (cells ++ [pyStrip curText]) s.text s.bbox.x1 rest

/-- `merge_spans_for_table(spans, gap_threshold)` (source lines 81–101):
merge spans of one line into cell strings, sorted by `x0`; a span joins the
current cell when its gap to the cell's right edge is `< gap_threshold`, and
each finished cell is stripped of surrounding whitespace. -/
def merge_spans_for_table (spans : List Span) (gapThreshold : Int) :
    List (List Char) :=
  match sortSpansByX0 spans with
  | [] => []
  | s :: rest => mergeSpansLoop gapThreshold [] s.text s.bbox.x1 rest

/-- Loop of the claim-level cell grouping: `cur` is the current cell's spans
in reverse accumulation order, `curEnd` its right edge (the `x1` of the last
span added). -/
def cellGroupsLoop (gapThreshold : Int) (cur : List Span) (curEnd : Int) :
    List Span → List (List Span)
  | [] => [cur.reverse]
  | s :: rest =>
    if s.bbox.x0 - curEnd < gapThreshold then
      cellGroupsLoop gapThreshold (s :: cur) s.bbox.x1 rest
    else
      cur.reverse :: cellGroupsLoop gapThreshold [s] s.bbox.x1 rest

/-- Statement of the cell-merge claim, following its words: walking the spans
in ascending `x0` order, a span is accumulated into the current cell exactly
when its `x0` minus the cell's right edge is strictly less than the
threshold, and a new cell starts exactly when that gap is ≥ the threshold. -/
def cellGroups (gapThreshold : Int) (spans : List Span) : List (List Span) :=
  match sortSpansByX0 spans with
  | [] => []
  | s :: rest => cellGroupsLoop gapThreshold [s] s.bbox.x1 rest

/-- Per-line cell counting of `is_table_block` (source lines 113–119),
including the early `return False` when a line merges to fewer than two
cells: `none` models that early return. -/
def cellCountsChecked (gapThreshold : Int) : List Line → Option (List Nat)
  | [] => some []
  | l :: ls =>
    let cells := merge_spans_for_table l.spans gapThreshold
    if cells.length < 2 then none
    else (cellCountsChecked gapThreshold ls).map (fun cs => cells.length :: cs)

/-- `is_table_block(block, gap_threshold)` (source lines 103–120): a text
block is a table candidate iff it has at least two lines, every line merges
to at least two cells, and `len(set(cell_counts)) == 1`. -/
def is_table_block (block : Block) (gapThreshold : Int) : Bool :=
  if block.lines.length < 2 then false
  else
    match cellCountsChecked gapThreshold block.lines with
    | none => false
    | some counts => counts.toFinset.card == 1

/-- The bullet-marker character class of source line 205 (`•`, `-`, `*`; the
escape of U+2022 in the source duplicates `•`). -/
def isBulletChar (c : Char) : Bool :=
  c = '•' || c = '-' || c = '*'

/-- Greedy anchored match of the numbered-marker pattern of source line 204
(optional whitespace, one or more digits, a period or closing parenthesis,
then at least one whitespace character).  Returns the remainder of the line
after the matched marker — which is what `re.sub(pattern, "", text, count=1)`
leaves — or `none` when the line does not match.  All character classes in
the pattern are pairwise disjoint, so the greedy match is the unique one. -/
def matchNumberedMarker (s : List Char) : Option (List Char) :=
  let s1 := s.dropWhile pySpace
  let ds := s1.takeWhile Char.isDigit
  let s2 := s1.dropWhile Char.isDigit
  if ds.isEmpty then none
  else
    match s2 with
    | [] => none
    | c :: s3 =>
      if (c = '.' || c = ')') && !(s3.takeWhile pySpace).isEmpty then
        some (s3.dropWhile pySpace)
      else none

/-- Greedy anchored match of the bulleted-marker pattern of source line 205
(optional whitespace, one bullet character, then at least one whitespace
character); returns the remainder after the marker. -/
def matchBulletMarker (s : List Char) : Option (List Char) :=
  let s1 := s.dropWhile pySpace
  match s1 with
  | [] => none
  | c :: s2 =>
    if isBulletChar c && !(s2.takeWhile pySpace).isEmpty then
      some (s2.dropWhile pySpace)
    else none

/-- Source lines 206–207: a line bears a list marker when it matches the
numbered or the bulleted pattern. -/
def matchesListMarker (s : List Char) : Bool :=
  (matchNumberedMarker s).isSome || (matchBulletMarker s).isSome

/-- The two list styles of source lines 213 and 216 (`"List Number"` and
`"List Bullet"`). -/
inductive ListKind where
  | numbered
  | bulleted
deriving DecidableEq

/-- One structured content item handed to the document sink.  Items carry the
source text of the translation unit; `listItem` with kind `none` models the
fall-through of source lines 210–217 where neither pattern matches and the
paragraph is added with `style=None` (unreachable under the list check). -/
inductive StructuredItem where
  | paragraph (text : List Char) (indent : Int)
  | listItem (text : List Char) (indent : Int) (kind : Option ListKind)
  | table (rows : List (List (List Char)))
  | image (payload : List Nat)
deriving DecidableEq

/-- `lines_info` of source lines 193–199: the reconstructed text and first
span `x0` of every line whose reconstruction is non-blank (`line_text.strip()`
truthy); a line without spans falls back to the page left margin (and is in
fact always filtered out, since its reconstruction is empty). -/
def linesInfo (margin : Int) (b : Block) : List (List Char × Int) :=
  b.lines.filterMap (fun l =>
    let t := join_spans l.spans 3
    if pyStrip t ≠ [] then
      some (t, match l.spans with | [] => margin | s :: _ => s.bbox.x0)
    else none)

/-- Source lines 210–226: one list line becomes an item whose marker is
stripped (first match only, numbered pattern checked first) and whose indent
is the line's first span `x0` minus the page left margin. -/
def listItemOfLine (margin : Int) (p : List Char × Int) : StructuredItem :=
  match matchNumberedMarker p.1 with
  | some rest => .listItem (pyStrip rest) (p.2 - margin) (some .numbered)
  | none =>
    match matchBulletMarker p.1 with
    | some rest => .listItem (pyStrip rest) (p.2 - margin) (some .bulleted)
    | none => .listItem p.1 (p.2 - margin) none

/-- `table_data` of source lines 173–177: each line re-merged into cells with
the default threshold 10. -/
def tableCellRows (b : Block) : List (List (List Char)) :=
  b.lines.map (fun l => merge_spans_for_table l.spans 10)

/-- `num_cols` of source line 179: `len(table_data[0]) if table_data else 0`. -/
def tableNumCols (rows : List (List (List Char))) : Nat :=
  match rows with
  | [] => 0
  | r :: _ => r.length

/-- Source lines 184–186: the emitted grid reads `row[j] if j < len(row)`
and pads a missing cell with the empty string. -/
def tableRowsPadded (rows : List (List (List Char))) : List (List (List Char)) :=
  rows.map (fun row => (List.range (tableNumCols rows)).map (fun j => row.getD j []))

/-- Source lines 170–190: emission of a table block; `num_cols == 0` makes
the block emit nothing (`continue`). -/
def tableItemOfBlock (b : Block) : List StructuredItem :=
  let rows := tableCellRows b
  if tableNumCols rows = 0 then []
  else [.table (tableRowsPadded rows)]

/-- The routing decision for one text block (source lines 170, 200, 206–209):
table heuristic first, then the skip of blocks with no non-blank line, then
the list check, then the paragraph fallback. -/
inductive TextBlockKind where
  | table
  | list
  | paragraph
  | skipped
deriving DecidableEq

/-- Classification of one text block, mirroring the `if`/`else` chain of
source lines 170–232. -/
def textBlockKind (margin : Int) (b : Block) : TextBlockKind :=
  if is_table_block b 10 then .table
  else
    let infos := linesInfo margin b
    if infos.isEmpty then .skipped
    else if infos.all (fun p => matchesListMarker p.1) then .list
    else .paragraph

/-- Source lines 229–235: the paragraph fallback joins the non-blank
reconstructed lines with `"\n"` and indents by the first line's first span
`x0` minus the page left margin. -/
def paragraphOfInfos (margin : Int) (infos : List (List Char × Int)) :
    StructuredItem :=
  .paragraph (List.intercalate ['\n'] (infos.map Prod.fst))
    ((infos.headD ([], margin)).2 - margin)

/-- The items emitted for one text block (source lines 168–238). -/
def classifyTextBlock (margin : Int) (b : Block) : List StructuredItem :=
  match textBlockKind margin b with
  | .table => tableItemOfBlock b
  | .skipped => []
  | .list => (linesInfo margin b).map (listItemOfLine margin)
  | .paragraph => [paragraphOfInfos margin (linesInfo margin b)]

/-- `all_x` of source lines 157–163: the first span's `x0` of every text
line (of a type-0 block) that has spans. -/
def pageAllX (blocks : List Block) : List Int :=
  blocks.flatMap (fun b =>
    if b.btype = 0 then
      b.lines.filterMap (fun l =>
        match l.spans with
        | [] => none
        | s :: _ => some s.bbox.x0)
    else [])

/-- `page_left_margin = min(all_x) if all_x else 0` (source line 164). -/
def pageLeftMargin (blocks : List Block) : Int :=
  match pageAllX blocks with
  | [] => 0
  | x :: xs => xs.foldl min x

/-- MD5 fingerprint of an image payload (source lines 11–15), modelled as an
injective function of the byte payload: identical bytes give identical keys
and, in the model, distinct bytes give distinct keys. -/
def get_image_key (payload : List Nat) : List Nat :=
  payload

/-- The items of one block together with the updated fingerprint set (source
lines 166–271): a text block contributes its classified items; an image
block with a resolved payload is fingerprinted and emitted only when the key
is new; unresolved images and unknown block types are skipped. -/
def blockItems (margin : Int) (seen : List (List Nat)) (b : Block) :
    List StructuredItem × List (List Nat) :=
  if b.btype = 0 then (classifyTextBlock margin b, seen)
  else if b.btype = 1 then
    match b.image with
    | some payload =>
      let key := get_image_key payload
      if key ∈ seen then ([], seen) else ([.image payload], key :: seen)
    | none => ([], seen)
  else ([], seen)

/-- Walk the (sorted) blocks of one page, tagging every emitted item with the
`y0` of its source block and threading the fingerprint set. -/
def pageItemsAux (margin : Int) (seen : List (List Nat)) :
    List Block → List (StructuredItem × Int) × List (List Nat)
  | [] => ([], seen)
  | b :: bs =>
    let r := blockItems margin seen b
    let rest := pageItemsAux margin r.2 bs
    (r.1.map (fun it => (it, b.bbox.y0)) ++ rest.1, rest.2)

/-- One page of the structurer (source lines 152–271): sort the blocks by
`y0`, compute the page left margin, then emit the items block by block. -/
def processPage (seen : List (List Nat)) (blocks : List Block) :
    List (StructuredItem × Int) × List (List Nat) :=
  let sorted := sortBlocksByY0 blocks
  let margin := pageLeftMargin sorted
  pageItemsAux margin seen sorted

/-- True when the character lies in the CJK range U+4E00–U+9FFF counted by
source line 45. -/
def isChineseChar (c : Char) : Bool :=
  0x4e00 ≤ c.toNat && c.toNat ≤ 0x9fff

/-- `chinese_ratio` of source lines 45–47: the fraction of target-script
characters among all characters of the candidate, 0 for the empty string. -/
def chineseFrac (s : List Char) : ℚ :=
  if s.length = 0 then 0 else (s.countP isChineseChar : ℚ) / (s.length : ℚ)

/-- The retry loop of `translate_text` (source lines 21–58) over a remaining
attempt budget and the current attempt index.  Each iteration makes exactly
one translator invocation (counted in the second component): an invocation
that raises counts as a failed attempt and the loop retries; a candidate is
accepted, stopping the loop, exactly when its ratio is ≥ 0.15; when the
budget is exhausted the result is `none`. -/
def translateAttempts (oracle : Nat → Except Unit (List Char)) :
    Nat → Nat → Option (List Char) × Nat
  | 0, _ => (none, 0)
  | k + 1, attempt =>
    match oracle attempt with
    | .error _ =>
      let r := translateAttempts oracle k (attempt + 1)
      (r.1, r.2 + 1)
    | .ok raw =>
      let candidate := pyStrip raw
      if (15 : ℚ)/100 ≤ chineseFrac candidate then (some candidate, 1)
      else
        let r := translateAttempts oracle k (attempt + 1)
        (r.1, r.2 + 1)

/-- `translate_text` (source lines 17–59) with `max_attempts = 3`: the first
accepted candidate, or `none` when no attempt is accepted. -/
def translate_text (oracle : Nat → Except Unit (List Char)) :
    Option (List Char) :=
  (translateAttempts oracle 3 0).1

/-- Number of translator invocations made by `translate_text`. -/
def translatorCalls (oracle : Nat → Except Unit (List Char)) : Nat :=
  (translateAttempts oracle 3 0).2

/-- The caller-side fallback of source lines 189, 220 and 232:
`translated if (translated and translated != text) else text`. -/
def final_text (translated : Option (List Char)) (orig : List Char) :
    List Char :=
  match translated with
  | some t => if t ≠ [] ∧ t ≠ orig then t else orig
  | none => orig

/-- The image payloads of one page: those resolved while walking the
structural blocks (source lines 239–269) and those resolved by the
page-level fallback pass (source lines 273–294). -/
structure PageImages where
  blockPayloads : List (List Nat)
  fallbackPayloads : List (List Nat)
deriving DecidableEq

/-- One dedup-and-emit pass over a list of resolved payloads (source lines
257–261 and 283–287): a payload whose key is already in the set is skipped,
otherwise its key is added and the payload is emitted. -/
def emitImagesPass (seen : List (List Nat)) :
    List (List Nat) → List (List Nat) × List (List Nat)
  | [] => ([], seen)
  | b :: rest =>
    let key := get_image_key b
    if key ∈ seen then emitImagesPass seen rest
    else
      let r := emitImagesPass (key :: seen) rest
      (b :: r.1, r.2)

/-- The emitted images of a document: pages in order, block path then
fallback pass per page, one fingerprint set threaded through all of them. -/
def convertPagesImages (seen : List (List Nat)) :
    List PageImages → List (List Nat)
  | [] => []
  | p :: ps =>
    let r1 := emitImagesPass seen p.blockPayloads
    let r2 := emitImagesPass r1.2 p.fallbackPayloads
    r1.1 ++ r2.1 ++ convertPagesImages r2.2 ps

/-- Whole-document image emission: the fingerprint set starts empty for each
input file (source line 145, `processed_keys = set()` inside the per-file
conversion). -/
def convertDocImages (pages : List PageImages) : List (List Nat) :=
  convertPagesImages [] pages

/-- All payloads resolved during one conversion, in processing order. -/
def allPayloads (pages : List PageImages) : List (List Nat) :=
  pages.flatMap (fun p => p.blockPayloads ++ p.fallbackPayloads)

/-- Statement of the deduplication claim, following its words: of every
payload only the first occurrence in processing order is kept. -/
def firstOccs : List (List Nat) → List (List Nat)
  | [] => []
  | b :: rest => b :: firstOccs (rest.filter (fun c => c != b))
termination_by l => l.length
decreasing_by
  exact Nat.lt_succ_of_le (List.length_filter_le _ _)

/-- A line carrying a numbered list marker, for concrete evaluations. -/
def markerSpan : Span := ⟨"1. a".toList, ⟨0, 0, 10, 2⟩⟩

/-- A span whose text is a single space: its line reconstructs to a
non-empty but blank string. -/
def blankSpan : Span := ⟨" ".toList, ⟨0, 4, 5, 6⟩⟩

/-- A text block with one marker line and one blank (whitespace-only) line:
the source drops the blank line before the list check. -/
def mixedBlock : Block :=
  ⟨0, ⟨0, 0, 10, 6⟩, [⟨[markerSpan]⟩, ⟨[blankSpan]⟩], none⟩

/-- A concrete 2×2 table block: two lines of two well-separated spans each. -/
def sampleTableBlock : Block :=
  ⟨0, ⟨0, 0, 22, 4⟩,
    [⟨[⟨['A'], ⟨0, 0, 2, 1⟩⟩, ⟨['B'], ⟨20, 0, 22, 1⟩⟩]⟩,
     ⟨[⟨['C'], ⟨0, 2, 2, 3⟩⟩, ⟨['D'], ⟨20, 2, 22, 3⟩⟩]⟩],
    none⟩

/-- A concrete two-line numbered-list block. -/
def sampleListBlock : Block :=
  ⟨0, ⟨0, 0, 20, 4⟩,
    [⟨[⟨"1. First".toList, ⟨0, 0, 10, 1⟩⟩]⟩,
     ⟨[⟨"2. Second".toList, ⟨0, 2, 11, 3⟩⟩]⟩],
    none⟩

/-- A two-line block whose first line reconstructs to the non-empty blank
string `" "` (first span at x0 = 7) and whose second line is `"A"` at
x0 = 3: the source drops the blank line, emitting the paragraph `"A"` with
indent 3. -/
def blankFirstBlock : Block :=
  ⟨0, ⟨0, 0, 12, 4⟩,
    [⟨[⟨" ".toList, ⟨7, 0, 8, 1⟩⟩]⟩,
     ⟨[⟨"A".toList, ⟨3, 2, 4, 3⟩⟩]⟩],
    none⟩

/-- A concrete two-line block with no list markers and one merged cell per
line: it falls through to the paragraph path. -/
def sampleParaBlock : Block :=
  ⟨0, ⟨0, 0, 30, 4⟩,
    [⟨[⟨"Hello".toList, ⟨0, 0, 10, 1⟩⟩]⟩,
     ⟨[⟨"world".toList, ⟨2, 2, 12, 3⟩⟩]⟩],
    none⟩

end PdfTranslate

namespace PdfTranslate

theorem dropWhile_idem (p : α → Bool) (l : List α) :
    (l.dropWhile p).dropWhile p = l.dropWhile p := by
  induction l with
  | nil => rfl
  | cons a l ih =>
    by_cases h : p a = true
    · simp [List.dropWhile_cons, h, ih]
    · simp [List.dropWhile_cons, h]

theorem dropWhile_eq_self_of_prefix (p : α → Bool) {x y : List α}
    (hpre : y <+: x) (hx : x.dropWhile p = x) : y.dropWhile p = y := by
  cases y with
  | nil => rfl
  | cons c y' =>
    obtain ⟨t, ht⟩ := hpre
    subst ht
    simp only [List.cons_append] at hx
    by_cases h : p c = true
    · exfalso
      rw [List.dropWhile_cons, if_pos h] at hx
      have hlen := congrArg List.length hx
      have hle := (List.dropWhile_suffix (l := y' ++ t) p).length_le
      rw [List.length_cons] at hlen
      omega
    · simp [List.dropWhile_cons, h]

theorem pyStrip_idem (s : List Char) : pyStrip (pyStrip s) = pyStrip s := by
  unfold pyStrip
  set a := s.dropWhile pySpace with ha
  set b := ((a.reverse.dropWhile pySpace)).reverse with hb
  have hba : b <+: a := by
    have hsuf : b.reverse <:+ a.reverse := by
      rw [hb, List.reverse_reverse]
      exact List.dropWhile_suffix pySpace
    exact List.reverse_suffix.mp hsuf
  have hael : a.dropWhile pySpace = a := by
    rw [ha]; exact dropWhile_idem pySpace s
  have hbel : b.dropWhile pySpace = b :=
    dropWhile_eq_self_of_prefix pySpace hba hael
  have hbrev : b.reverse.dropWhile pySpace = b.reverse := by
    rw [hb, List.reverse_reverse]
    exact dropWhile_idem pySpace a.reverse
  rw [hbel, hbrev, List.reverse_reverse]

theorem mem_insertByKey (key : α → Int) (x z : α) (l : List α) :
    z ∈ insertByKey key x l ↔ z = x ∨ z ∈ l := by
  induction l with
  | nil => simp [insertByKey]
  | cons y ys ih =>
    by_cases h : key x ≤ key y
    · simp [insertByKey, h]
    · simp [insertByKey, h, ih]
      tauto

theorem perm_insertByKey (key : α → Int) (x : α) (l : List α) :
    (insertByKey key x l).Perm (x :: l) := by
  induction l with
  | nil => simp [insertByKey]
  | cons y ys ih =>
    by_cases h : key x ≤ key y
    · simp [insertByKey, h]
    · rw [insertByKey, if_neg h]
      exact (ih.cons y).trans (List.Perm.swap x y ys)

theorem perm_sortByKey (key : α → Int) (l : List α) :
    (sortByKey key l).Perm l := by
  induction l with
  | nil => simp [sortByKey]
  | cons x xs ih =>
    exact (perm_insertByKey key x (sortByKey key xs)).trans (ih.cons x)

theorem pairwise_insertByKey (key : α → Int) (x : α) (l : List α)
    (h : l.Pairwise (fun a b => key a ≤ key b)) :
    (insertByKey key x l).Pairwise (fun a b => key a ≤ key b) := by
  induction l with
  | nil => simp [insertByKey]
  | cons y ys ih =>
    rcases List.pairwise_cons.mp h with ⟨hy, hys⟩
    by_cases hxy : key x ≤ key y
    · rw [insertByKey, if_pos hxy]
      refine List.pairwise_cons.mpr ⟨?_, h⟩
      intro z hz
      rcases List.mem_cons.mp hz with rfl | hz
      · exact hxy
      · exact le_trans hxy (hy z hz)
    · rw [insertByKey, if_neg hxy]
      refine List.pairwise_cons.mpr ⟨?_, ih hys⟩
      intro z hz
      rcases (mem_insertByKey key x z ys).mp hz with rfl | hz
      · exact le_of_lt (lt_of_not_le hxy)
      · exact hy z hz

theorem pairwise_sortByKey (key : α → Int) (l : List α) :
    (sortByKey key l).Pairwise (fun a b => key a ≤ key b) := by
  induction l with
  | nil => simp [sortByKey]
  | cons x xs ih => exact pairwise_insertByKey key x _ ih

theorem filter_insertByKey_eq (key : α → Int) (x : α) (l : List α) (v : Int)
    (hx : key x = v) :
    (insertByKey key x l).filter (fun a => key a == v) =
      x :: l.filter (fun a => key a == v) := by
  induction l with
  | nil => simp [insertByKey, List.filter_cons, hx]
  | cons y ys ih =>
    by_cases hxy : key x ≤ key y
    · rw [insertByKey, if_pos hxy]
      simp [List.filter_cons, hx]
    · have hy : (key y == v) = false := by
        have hlt : key y < key x := lt_of_not_le hxy
        have hne : key y ≠ v := by rw [← hx]; exact ne_of_lt hlt
        simpa using hne
      rw [insertByKey, if_neg hxy, List.filter_cons, List.filter_cons, hy, ih]
      simp

theorem filter_insertByKey_ne (key : α → Int) (x : α) (l : List α) (v : Int)
    (hx : ¬ key x = v) :
    (insertByKey key x l).filter (fun a => key a == v) =
      l.filter (fun a => key a == v) := by
  induction l with
  | nil => simp [insertByKey, List.filter_cons, hx]
  | cons y ys ih =>
    by_cases hxy : key x ≤ key y
    · simp [insertByKey, hxy, List.filter_cons, hx]
    · rw [insertByKey, if_neg hxy]
      by_cases hy : key y = v
      · simp [List.filter_cons, hy, ih]
      · simp [List.filter_cons, hy, ih]

/-- Stability of `sortByKey`: the subsequence of elements with any fixed key
value is exactly the corresponding subsequence of the input, in input order. -/
theorem filter_sortByKey (key : α → Int) (l : List α) (v : Int) :
    (sortByKey key l).filter (fun a => key a == v) =
      l.filter (fun a => key a == v) := by
  induction l with
  | nil => simp [sortByKey]
  | cons x xs ih =>
    by_cases hx : key x = v
    · rw [sortByKey, filter_insertByKey_eq key x _ v hx, ih,
        List.filter_cons, if_pos (by simp [hx])]
    · rw [sortByKey, filter_insertByKey_ne key x _ v hx, ih,
        List.filter_cons, if_neg (by simp [hx])]

theorem joinSpansLoop_eq (t : Int) (acc : List Char) (prev : Span)
    (rest : List Span) :
    joinSpansLoop t acc prev.bbox.x1 rest
      = acc ++ ((prev :: rest).zip rest).flatMap (fun p =>
          if p.2.bbox.x0 - p.1.bbox.x1 > t then ' ' :: p.2.text
          else p.2.text) := by
  induction rest generalizing acc prev with
  | nil => simp [joinSpansLoop]
  | cons s rest ih =>
    rw [joinSpansLoop]
    show joinSpansLoop t _ s.bbox.x1 rest = _
    rw [ih _ s]
    simp only [List.zip_cons_cons, List.flatMap_cons]
    by_cases h : s.bbox.x0 - prev.bbox.x1 > t
    · simp [h, List.append_assoc]
    · simp [h, List.append_assoc]

/-- Claim C1: for every list of spans, the Span Reassembler with threshold 3
returns the concatenation of the span texts taken in ascending `bbox.x0`
order, where a single space is inserted before a span's text exactly when
that span's `x0` minus the previously processed span's `x1` is strictly
greater than 3 (regardless of insertion, the running right edge is the
previous span's `x1`); the processing order is sorted by `x0` and is a
permutation of the input, and the empty span list yields the empty string. -/
theorem claim_C1_join_spans (spans : List Span) :
    join_spans spans 3 = joinSpansClaim spans 3
      ∧ (sortSpansByX0 spans).Pairwise (fun a b => a.bbox.x0 ≤ b.bbox.x0)
      ∧ (sortSpansByX0 spans).Perm spans
      ∧ join_spans ([] : List Span) 3 = [] := by
  refine ⟨?_, pairwise_sortByKey _ spans, perm_sortByKey _ spans, rfl⟩
  unfold join_spans joinSpansClaim
  cases sortSpansByX0 spans with
  | nil => rfl
  | cons s rest => exact joinSpansLoop_eq 3 s.text s rest

theorem spaceJoin_append_singleton (l : List (List Char)) (x : List Char)
    (h : l ≠ []) : spaceJoin (l ++ [x]) = spaceJoin l ++ ' ' :: x := by
  cases l with
  | nil => exact absurd rfl h
  | cons u us => simp [spaceJoin, List.flatMap_append, List.append_assoc]

theorem mergeSpansLoop_eq (t : Int) (cells : List (List Char))
    (gRev : List Span) (hne : gRev ≠ []) (curEnd : Int) (rest : List Span) :
    mergeSpansLoop t cells (spaceJoin (gRev.reverse.map Span.text)) curEnd rest
      = cells ++ (cellGroupsLoop t gRev curEnd rest).map
          (fun g => pyStrip (spaceJoin (g.map Span.text))) := by
  induction rest generalizing cells gRev curEnd with
  | nil => simp [mergeSpansLoop, cellGroupsLoop]
  | cons s rest ih =>
    rw [mergeSpansLoop, cellGroupsLoop]
    by_cases h : s.bbox.x0 - curEnd < t
    · rw [if_pos h, if_pos h]
      have hstep : spaceJoin (gRev.reverse.map Span.text) ++ ' ' :: s.text
          = spaceJoin ((s :: gRev).reverse.map Span.text) := by
        rw [List.reverse_cons, List.map_append]
        simp only [List.map_cons, List.map_nil]
        rw [spaceJoin_append_singleton _ _ (by simpa using hne)]
      rw [hstep]
      exact ih cells (s :: gRev) (by simp) s.bbox.x1
    · rw [if_neg h, if_neg h]
      have hsingle : s.text = spaceJoin ([s].reverse.map Span.text) := by
        simp [spaceJoin]
      rw [hsingle,
        ih (cells ++ [pyStrip (spaceJoin (gRev.reverse.map Span.text))])
          [s] (by simp) s.bbox.x1]
      simp [List.append_assoc]

/-- Claim C3: for every list of spans, cell merge with threshold 10 walks the
spans in ascending `bbox.x0` order, accumulates a span into the current cell
exactly when its `x0` minus the cell's right edge is strictly below 10 and
starts a new cell exactly when that gap is ≥ 10 (this is the grouping
computed by `cellGroups`), and every emitted cell string is trimmed of
leading and trailing whitespace. -/
theorem claim_C3_merge_spans (spans : List Span) :
    merge_spans_for_table spans 10
        = (cellGroups 10 spans).map
            (fun g => pyStrip (spaceJoin (g.map Span.text)))
      ∧ (sortSpansByX0 spans).Pairwise (fun a b => a.bbox.x0 ≤ b.bbox.x0)
      ∧ ∀ c ∈ merge_spans_for_table spans 10, pyStrip c = c := by
  have hmain : merge_spans_for_table spans 10
      = (cellGroups 10 spans).map
          (fun g => pyStrip (spaceJoin (g.map Span.text))) := by
    unfold merge_spans_for_table cellGroups
    cases sortSpansByX0 spans with
    | nil => rfl
    | cons s rest =>
      have h := mergeSpansLoop_eq 10 [] [s] (by simp) s.bbox.x1 rest
      simpa [spaceJoin] using h
  refine ⟨hmain, pairwise_sortByKey _ spans, ?_⟩
  intro c hc
  rw [hmain] at hc
  obtain ⟨g, hg, rfl⟩ := List.mem_map.mp hc
  exact pyStrip_idem _

/-- Witness for claim C3 at a concrete line of two spans, whose wide gap (15)
produces two cells, the first of which is stripped of whitespace. -/
theorem claim_C3_witness :
    ['a'] ∈ merge_spans_for_table
        [(⟨" a ".toList, ⟨0, 0, 5, 1⟩⟩ : Span),
         (⟨"b".toList, ⟨20, 0, 25, 1⟩⟩ : Span)] 10
      ∧ pyStrip ['a'] = ['a'] :=
  ⟨by decide,
    (claim_C3_merge_spans
      [(⟨" a ".toList, ⟨0, 0, 5, 1⟩⟩ : Span),
       (⟨"b".toList, ⟨20, 0, 25, 1⟩⟩ : Span)]).2.2 ['a'] (by decide)⟩

theorem cellCountsChecked_eq_some_iff (t : Int) (ls : List Line)
    (cs : List Nat) :
    cellCountsChecked t ls = some cs ↔
      (∀ l ∈ ls, 2 ≤ (merge_spans_for_table l.spans t).length)
        ∧ cs = ls.map (fun l => (merge_spans_for_table l.spans t).length) := by
  induction ls generalizing cs with
  | nil => simp [cellCountsChecked, eq_comm]
  | cons l ls ih =>
    simp only [cellCountsChecked]
    by_cases h : (merge_spans_for_table l.spans t).length < 2
    · rw [if_pos h]
      constructor
      · intro hfalse
        exact absurd hfalse (by simp)
      · rintro ⟨hall, -⟩
        have := hall l (List.mem_cons_self l ls)
        omega
    · rw [if_neg h]
      constructor
      · intro hmap
        rcases Option.map_eq_some'.mp hmap with ⟨cs', h1, h2⟩
        rcases (ih cs').mp h1 with ⟨hall, rfl⟩
        subst h2
        refine ⟨?_, by simp⟩
        intro l' hl'
        rcases List.mem_cons.mp hl' with rfl | hl'
        · omega
        · exact hall l' hl'
      · rintro ⟨hall, rfl⟩
        have h1 : cellCountsChecked t ls
            = some (ls.map fun l => (merge_spans_for_table l.spans t).length) :=
          (ih _).mpr ⟨fun l' hl' => hall l' (List.mem_cons_of_mem _ hl'), rfl⟩
        rw [h1]
        simp

theorem toFinset_card_eq_one_iff (l : List Nat) :
    l.toFinset.card = 1 ↔ l ≠ [] ∧ ∀ x ∈ l, ∀ y ∈ l, x = y := by
  constructor
  · intro h
    rcases Finset.card_eq_one.mp h with ⟨a, ha⟩
    constructor
    · intro hnil
      subst hnil
      simp at ha
      exact absurd ha.symm (Finset.singleton_ne_empty a)
    · intro x hx y hy
      have hx' : x ∈ l.toFinset := List.mem_toFinset.mpr hx
      have hy' : y ∈ l.toFinset := List.mem_toFinset.mpr hy
      rw [ha, Finset.mem_singleton] at hx' hy'
      rw [hx', hy']
  · rintro ⟨hne, hall⟩
    cases l with
    | nil => exact absurd rfl hne
    | cons a l =>
      apply Finset.card_eq_one.mpr
      refine ⟨a, ?_⟩
      apply Finset.ext
      intro c
      simp only [List.mem_toFinset, Finset.mem_singleton]
      constructor
      · intro hc
        exact hall c hc a (List.mem_cons_self a l)
      · intro hc
        subst hc
        exact List.mem_cons_self c l

/-- Characterisation of `is_table_block` with threshold 10: at least two
lines, at least two merged cells on every line, and the same cell count on
every pair of lines. -/
theorem is_table_block_iff (b : Block) :
    is_table_block b 10 = true ↔
      2 ≤ b.lines.length
        ∧ (∀ l ∈ b.lines, 2 ≤ (merge_spans_for_table l.spans 10).length)
        ∧ (∀ l1 ∈ b.lines, ∀ l2 ∈ b.lines,
            (merge_spans_for_table l1.spans 10).length
              = (merge_spans_for_table l2.spans 10).length) := by
  unfold is_table_block
  by_cases hlen : b.lines.length < 2
  · rw [if_pos hlen]
    simp only [Bool.false_eq_true, false_iff]
    rintro ⟨h2, -, -⟩
    omega
  · rw [if_neg hlen]
    cases hc : cellCountsChecked 10 b.lines with
    | none =>
      simp only [Bool.false_eq_true, false_iff]
      rintro ⟨h2, hall, heq⟩
      have hsome : cellCountsChecked 10 b.lines
          = some (b.lines.map fun l => (merge_spans_for_table l.spans 10).length) :=
        (cellCountsChecked_eq_some_iff 10 b.lines _).mpr ⟨hall, rfl⟩
      rw [hc] at hsome
      exact Option.noConfusion hsome
    | some counts =>
      rcases (cellCountsChecked_eq_some_iff 10 b.lines counts).mp hc
        with ⟨hall, rfl⟩
      rw [beq_iff_eq, toFinset_card_eq_one_iff]
      constructor
      · rintro ⟨hne, huniq⟩
        refine ⟨by omega, hall, ?_⟩
        intro l1 hl1 l2 hl2
        exact huniq _ (List.mem_map_of_mem _ hl1) _ (List.mem_map_of_mem _ hl2)
      · rintro ⟨h2, -, heq⟩
        constructor
        · intro hmapnil
          have hln : b.lines.length = 0 := by
            have hlen2 := congrArg List.length hmapnil
            simpa using hlen2
          omega
        · intro x hx y hy
          rcases List.mem_map.mp hx with ⟨l1, hl1, rfl⟩
          rcases List.mem_map.mp hy with ⟨l2, hl2, rfl⟩
          exact heq l1 hl1 l2 hl2

/-- Claim C2: a block passes the Table Heuristic with threshold 10 iff it
has at least 2 lines, every line merges to at least 2 cells, and all lines
merge to the same cell count; a single line with a differing or too small
cell count makes the result false (the contrapositive of this equivalence). -/
theorem claim_C2_is_table_block (b : Block) :
    is_table_block b 10 = true ↔
      2 ≤ b.lines.length
        ∧ (∀ l ∈ b.lines, 2 ≤ (merge_spans_for_table l.spans 10).length)
        ∧ (∀ l1 ∈ b.lines, ∀ l2 ∈ b.lines,
            (merge_spans_for_table l1.spans 10).length
              = (merge_spans_for_table l2.spans 10).length) :=
  is_table_block_iff b

/-- Witness for claim C2 at a concrete 2×2 table block: both lines merge to
two cells, so the block is accepted. -/
theorem claim_C2_witness :
    is_table_block sampleTableBlock 10 = true :=
  (claim_C2_is_table_block sampleTableBlock).mpr (by decide)

theorem range_map_getD (row : List α) (d : α) :
    (List.range row.length).map (fun j => row.getD j d) = row := by
  induction row with
  | nil => simp
  | cons a row ih =>
    simp only [List.length_cons, List.range_succ_eq_map, List.map_cons,
      List.map_map, List.getD_cons_zero]
    have hmap : ((fun j => (a :: row).getD j d) ∘ Nat.succ)
        = fun j => row.getD j d := by
      funext j
      simp [Function.comp, List.getD_cons_succ]
    rw [hmap, ih]

/-- Claim C10 (implicit): for a block accepted by `is_table_block`,
re-running cell merge in the emission path yields rows that all have length
`num_cols` (the first row's length, at least 2), so the `num_cols == 0`
guard never skips such a block and the padding branch never substitutes an
empty string: the padded grid is the grid itself. -/
theorem claim_C10_table_emission (b : Block)
    (h : is_table_block b 10 = true) :
    tableNumCols (tableCellRows b) ≠ 0
      ∧ 2 ≤ tableNumCols (tableCellRows b)
      ∧ (∀ row ∈ tableCellRows b,
          row.length = tableNumCols (tableCellRows b))
      ∧ tableRowsPadded (tableCellRows b) = tableCellRows b
      ∧ tableItemOfBlock b = [StructuredItem.table (tableCellRows b)] := by
  rcases (is_table_block_iff b).mp h with ⟨h2, hall, heq⟩
  obtain ⟨l0, ls, hl⟩ : ∃ l0 ls, b.lines = l0 :: ls := by
    cases hbl : b.lines with
    | nil => rw [hbl] at h2; simp at h2
    | cons l0 ls => exact ⟨l0, ls, rfl⟩
  have hnc : tableNumCols (tableCellRows b)
      = (merge_spans_for_table l0.spans 10).length := by
    rw [tableCellRows, hl, List.map_cons]
    rfl
  have hge : 2 ≤ tableNumCols (tableCellRows b) := by
    rw [hnc]
    exact hall l0 (by rw [hl]; exact List.mem_cons_self l0 ls)
  have hrowlen : ∀ row ∈ tableCellRows b,
      row.length = tableNumCols (tableCellRows b) := by
    intro row hrow
    rw [tableCellRows] at hrow
    rcases List.mem_map.mp hrow with ⟨l, hlmem, rfl⟩
    rw [hnc]
    exact heq l hlmem l0 (by rw [hl]; exact List.mem_cons_self l0 ls)
  have hpad : tableRowsPadded (tableCellRows b) = tableCellRows b := by
    unfold tableRowsPadded
    have hcongr : (tableCellRows b).map
        (fun row => (List.range (tableNumCols (tableCellRows b))).map
          (fun j => row.getD j []))
        = (tableCellRows b).map id := by
      apply List.map_congr_left
      intro row hrow
      simp only [id]
      rw [← hrowlen row hrow]
      exact range_map_getD row []
    rw [hcongr, List.map_id]
  refine ⟨by omega, hge, hrowlen, hpad, ?_⟩
  unfold tableItemOfBlock
  simp only []
  rw [if_neg (by omega : ¬ tableNumCols (tableCellRows b) = 0), hpad]

/-- Witness for claim C10 at a concrete 2×2 table block. -/
theorem claim_C10_witness :
    is_table_block sampleTableBlock 10 = true
      ∧ tableRowsPadded (tableCellRows sampleTableBlock)
          = tableCellRows sampleTableBlock :=
  ⟨by decide, (claim_C10_table_emission sampleTableBlock (by decide)).2.2.2.1⟩

/-- Claim C5: for every candidate produced on an attempt, the gate computes
the fraction of CJK-range (U+4E00–U+9FFF) characters over all characters of
the candidate — 0 for the empty candidate — and accepts the candidate,
stopping further attempts, exactly when this fraction is at least 0.15;
below 0.15 the loop moves on to the next attempt. -/
theorem claim_C5_quality_gate (oracle : Nat → Except Unit (List Char))
    (k attempt : Nat) (raw : List Char)
    (hok : oracle attempt = Except.ok raw) :
    ((15 : ℚ)/100 ≤ chineseFrac (pyStrip raw) →
        translateAttempts oracle (k + 1) attempt = (some (pyStrip raw), 1))
      ∧ (chineseFrac (pyStrip raw) < (15 : ℚ)/100 →
          translateAttempts oracle (k + 1) attempt
            = ((translateAttempts oracle k (attempt + 1)).1,
               (translateAttempts oracle k (attempt + 1)).2 + 1))
      ∧ chineseFrac [] = 0
      ∧ (∀ s : List Char, s ≠ [] →
          chineseFrac s = (s.countP isChineseChar : ℚ) / (s.length : ℚ)) := by
  refine ⟨?_, ?_, by simp [chineseFrac], ?_⟩
  · intro hratio
    rw [translateAttempts, hok]
    simp only [if_pos hratio]
  · intro hratio
    rw [translateAttempts, hok]
    simp only [if_neg (not_le.mpr hratio)]
  · intro s hs
    rw [chineseFrac, if_neg (by simpa [List.length_eq_zero] using hs)]

/-- Witness for claim C5: a candidate consisting of one CJK character has
ratio 1 ≥ 0.15 and is accepted on the first attempt. -/
theorem claim_C5_witness :
    (15 : ℚ)/100 ≤ chineseFrac (pyStrip "中".toList)
      ∧ translateAttempts (fun _ => Except.ok "中".toList) 3 0
          = (some (pyStrip "中".toList), 1) := by
  have hps : pyStrip "中".toList = ['中'] := by decide
  have hcount : (['中'].countP isChineseChar) = 1 := by decide
  have hge : (15 : ℚ)/100 ≤ chineseFrac (pyStrip "中".toList) := by
    rw [hps, chineseFrac]
    simp [hcount]
    norm_num
  exact ⟨hge,
    (claim_C5_quality_gate (fun _ => Except.ok "中".toList) 2 0 "中".toList
      rfl).1 hge⟩

theorem translateAttempts_calls_le (oracle : Nat → Except Unit (List Char))
    (k a : Nat) : (translateAttempts oracle k a).2 ≤ k := by
  induction k generalizing a with
  | zero => simp [translateAttempts]
  | succ k ih =>
    rw [translateAttempts]
    cases oracle a with
    | error e => simpa using Nat.succ_le_succ (ih (a + 1))
    | ok raw =>
      by_cases h : (15 : ℚ)/100 ≤ chineseFrac (pyStrip raw)
      · simp [h]
      · simpa [h] using Nat.succ_le_succ (ih (a + 1))

theorem translateAttempts_all_error (oracle : Nat → Except Unit (List Char))
    (k a : Nat) (h : ∀ i, a ≤ i → i < a + k → oracle i = Except.error ()) :
    (translateAttempts oracle k a).1 = none := by
  induction k generalizing a with
  | zero => simp [translateAttempts]
  | succ k ih =>
    rw [translateAttempts]
    rw [h a (le_refl a) (by omega)]
    exact ih (a + 1) (fun i hi1 hi2 => h i (by omega) (by omega))

theorem final_text_ne_nil (tr : Option (List Char)) (orig : List Char)
    (h : orig ≠ []) : final_text tr orig ≠ [] := by
  cases tr with
  | none => simpa [final_text] using h
  | some t =>
    rw [final_text]
    by_cases hc : t ≠ [] ∧ t ≠ orig
    · rw [if_pos hc]
      exact hc.1
    · rw [if_neg hc]
      exact h

/-- Claim C6: the gate makes at most `MAX_ATTEMPTS = 3` translator
invocations; an invocation that raises counts as one failed attempt and the
loop retries with the next attempt index; the gate never propagates the
error — when every attempt raises it returns `none` ("no translation
available") — so the caller's emitted text falls back to the original
source text, which is never empty when the input was non-empty. -/
theorem claim_C6_retry_and_fallback (oracle : Nat → Except Unit (List Char)) :
    translatorCalls oracle ≤ 3
      ∧ (∀ k attempt, oracle attempt = Except.error () →
          translateAttempts oracle (k + 1) attempt
            = ((translateAttempts oracle k (attempt + 1)).1,
               (translateAttempts oracle k (attempt + 1)).2 + 1))
      ∧ ((∀ i, i < 3 → oracle i = Except.error ()) →
          translate_text oracle = none)
      ∧ (∀ orig, final_text none orig = orig)
      ∧ (∀ orig : List Char, orig ≠ [] →
          final_text (translate_text oracle) orig ≠ []) := by
  refine ⟨translateAttempts_calls_le oracle 3 0, ?_, ?_, fun orig => rfl, ?_⟩
  · intro k attempt herr
    rw [translateAttempts, herr]
  · intro hall
    exact translateAttempts_all_error oracle 3 0
      (fun i hi1 hi2 => hall i (by omega))
  · intro orig h
    exact final_text_ne_nil _ orig h

/-- Witness for claim C6: with an oracle that raises on every attempt, the
gate makes at most 3 calls, returns `none`, and the caller emits the
original non-empty text. -/
theorem claim_C6_witness :
    translatorCalls (fun _ => (Except.error () : Except Unit (List Char))) ≤ 3
      ∧ translate_text (fun _ => (Except.error () : Except Unit (List Char)))
          = none
      ∧ final_text
          (translate_text
            (fun _ => (Except.error () : Except Unit (List Char)))) ['x']
          ≠ [] := by
  have h := claim_C6_retry_and_fallback
    (fun _ => (Except.error () : Except Unit (List Char)))
  exact ⟨h.1, h.2.2.1 (fun i _ => rfl), h.2.2.2.2 ['x'] (by decide)⟩

theorem emitImagesPass_append (seen xs ys : List (List Nat)) :
    emitImagesPass seen (xs ++ ys)
      = ((emitImagesPass seen xs).1
          ++ (emitImagesPass (emitImagesPass seen xs).2 ys).1,
         (emitImagesPass (emitImagesPass seen xs).2 ys).2) := by
  induction xs generalizing seen with
  | nil => simp [emitImagesPass]
  | cons b rest ih =>
    simp only [List.cons_append, emitImagesPass]
    by_cases h : get_image_key b ∈ seen
    · simp only [if_pos h, List.append_eq]
      exact ih seen
    · simp only [if_neg h, List.append_eq, ih (get_image_key b :: seen)]
      simp

theorem convertPagesImages_eq_emit (seen : List (List Nat))
    (pages : List PageImages) :
    convertPagesImages seen pages
      = (emitImagesPass seen (allPayloads pages)).1 := by
  induction pages generalizing seen with
  | nil => simp [convertPagesImages, allPayloads, emitImagesPass]
  | cons p ps ih =>
    rw [convertPagesImages]
    have h1 : allPayloads (p :: ps)
        = (p.blockPayloads ++ p.fallbackPayloads) ++ allPayloads ps := by
      simp [allPayloads]
    rw [h1, emitImagesPass_append, emitImagesPass_append]
    simp [ih, List.append_assoc]

theorem emitImagesPass_eq_firstOccs (l : List (List Nat))
    (seen : List (List Nat)) :
    (emitImagesPass seen l).1
      = firstOccs (l.filter (fun c => decide (c ∉ seen))) := by
  induction l generalizing seen with
  | nil => simp [emitImagesPass, firstOccs]
  | cons b rest ih =>
    simp only [emitImagesPass, get_image_key, List.filter_cons]
    by_cases h : b ∈ seen
    · rw [if_pos h]
      have hb : (decide (b ∉ seen)) = false := by simpa using h
      rw [hb]
      simp only [Bool.false_eq_true, if_false]
      exact ih seen
    · rw [if_neg h]
      have hb : (decide (b ∉ seen)) = true := by simpa using h
      rw [hb]
      simp only [if_true]
      rw [firstOccs]
      have hfil : rest.filter (fun c => decide (c ∉ b :: seen))
          = (rest.filter (fun c => decide (c ∉ seen))).filter
              (fun c => c != b) := by
        rw [List.filter_filter]
        apply List.filter_congr
        intro c hc
        by_cases hcb : c = b
        · subst hcb
          simp
        · by_cases hcs : c ∈ seen
          · simp [hcs, hcb]
          · simp [hcs, hcb]
      rw [ih (b :: seen), hfil]

theorem count_firstOccs (l : List (List Nat)) (b : List Nat) :
    (firstOccs l).count b = if b ∈ l then 1 else 0 := by
  generalize hn : l.length = n
  induction n using Nat.strong_induction_on generalizing l with
  | _ n ih =>
    cases l with
    | nil =>
      simp [firstOccs]
    | cons a rest =>
      subst hn
      rw [firstOccs]
      have hlen : (rest.filter (fun c => c != a)).length < (a :: rest).length := by
        have := List.length_filter_le (fun c => c != a) rest
        simp only [List.length_cons]
        omega
      have ihr := ih _ hlen (rest.filter (fun c => c != a)) rfl
      by_cases hba : b = a
      · subst hba
        rw [List.count_cons_self, ihr, if_neg (by simp), if_pos (by simp)]
      · rw [List.count_cons_of_ne hba, ihr]
        have hmem : b ∈ rest.filter (fun c => c != a) ↔ b ∈ rest := by
          simp [List.mem_filter, hba]
        by_cases hbr : b ∈ rest
        · rw [if_pos (hmem.mpr hbr), if_pos (by simp [hbr])]
        · rw [if_neg (fun hc => hbr (hmem.mp hc)),
            if_neg (by simp [hbr, hba])]

/-- Claim C7: within one document conversion — the fingerprint set starting
empty for the input file — the emitted images are exactly the first
occurrences, in processing order, of the payloads resolved via the block
path and the page-level fallback pass across all pages: a payload resolved
more than once is emitted exactly once (at its first occurrence) and
payloads with different bytes are emitted separately, one each. -/
theorem claim_C7_image_dedup (pages : List PageImages) :
    convertDocImages pages = firstOccs (allPayloads pages)
      ∧ (∀ b ∈ allPayloads pages, (convertDocImages pages).count b = 1)
      ∧ (∀ b, b ∉ allPayloads pages → (convertDocImages pages).count b = 0) := by
  have hmain : convertDocImages pages = firstOccs (allPayloads pages) := by
    rw [convertDocImages, convertPagesImages_eq_emit,
      emitImagesPass_eq_firstOccs]
    congr 1
    have : ∀ c : List Nat, (decide (c ∉ ([] : List (List Nat)))) = true := by
      intro c
      simp
    simp [this]
  refine ⟨hmain, ?_, ?_⟩
  · intro b hb
    rw [hmain, count_firstOccs, if_pos hb]
  · intro b hb
    rw [hmain, count_firstOccs, if_neg hb]

/-- Witness for claim C7: one page whose block path resolves payload `[0]`
and whose fallback pass resolves `[0]` again and a distinct `[1]`: `[0]` is
emitted once, at its first occurrence. -/
theorem claim_C7_witness :
    [0] ∈ allPayloads [(⟨[[0]], [[0], [1]]⟩ : PageImages)]
      ∧ (convertDocImages [(⟨[[0]], [[0], [1]]⟩ : PageImages)]).count [0] = 1 :=
  ⟨by decide,
    (claim_C7_image_dedup [(⟨[[0]], [[0], [1]]⟩ : PageImages)]).2.1 [0]
      (by decide)⟩

theorem pageItemsAux_snd_mem (margin : Int) (seen : List (List Nat))
    (bs : List Block) (y : Int)
    (hy : y ∈ (pageItemsAux margin seen bs).1.map Prod.snd) :
    ∃ b ∈ bs, y = b.bbox.y0 := by
  induction bs generalizing seen with
  | nil => simp [pageItemsAux] at hy
  | cons b bs ih =>
    simp only [pageItemsAux, List.map_append, List.mem_append] at hy
    rcases hy with hy | hy
    · refine ⟨b, List.mem_cons_self b bs, ?_⟩
      simp only [List.map_map, List.mem_map] at hy
      rcases hy with ⟨it, hit, hsnd⟩
      exact hsnd.symm
    · rcases ih _ hy with ⟨b', hb', rfl⟩
      exact ⟨b', List.mem_cons_of_mem b hb', rfl⟩

theorem pageItemsAux_snd_pairwise (margin : Int) (seen : List (List Nat))
    (bs : List Block)
    (hs : bs.Pairwise (fun a b => a.bbox.y0 ≤ b.bbox.y0)) :
    ((pageItemsAux margin seen bs).1.map Prod.snd).Pairwise
      (fun x y => x ≤ y) := by
  induction bs generalizing seen with
  | nil => simp [pageItemsAux]
  | cons b bs ih =>
    rcases List.pairwise_cons.mp hs with ⟨hb, hbs⟩
    simp only [pageItemsAux, List.map_append]
    rw [List.pairwise_append]
    have hall : ∀ x ∈ ((blockItems margin seen b).1.map
        (fun it => (it, b.bbox.y0))).map Prod.snd, x = b.bbox.y0 := by
      intro x hx
      simp only [List.map_map, List.mem_map] at hx
      rcases hx with ⟨it, hit, hsnd⟩
      exact hsnd.symm
    refine ⟨?_, ih _ hbs, ?_⟩
    · apply List.pairwise_of_forall_mem_list
      intro x hx y hy
      rw [hall x hx, hall y hy]
    · intro x hx y hy
      rw [hall x hx]
      rcases pageItemsAux_snd_mem margin _ bs y hy with ⟨b', hb', rfl⟩
      exact hb b' hb'

/-- Claim C9: the structured items emitted for a page appear in
non-decreasing `bbox.y0` order of their source blocks (each item is tagged
with its source block's `y0`), and the block sort is stable: for each `y0`
value the blocks carrying it are processed in the extractor-provided order,
the sorted sequence being a permutation of the input blocks. -/
theorem claim_C9_page_ordering (seen : List (List Nat))
    (blocks : List Block) :
    ((processPage seen blocks).1.map Prod.snd).Pairwise (fun x y => x ≤ y)
      ∧ (∀ v : Int, (sortBlocksByY0 blocks).filter (fun b => b.bbox.y0 == v)
            = blocks.filter (fun b => b.bbox.y0 == v))
      ∧ (sortBlocksByY0 blocks).Perm blocks := by
  refine ⟨?_, fun v => filter_sortByKey _ blocks v, perm_sortByKey _ blocks⟩
  simp only [processPage]
  exact pageItemsAux_snd_pairwise _ seen _ (pairwise_sortByKey _ blocks)

theorem foldl_min_mem (x : Int) (xs : List Int) :
    xs.foldl min x ∈ x :: xs := by
  induction xs generalizing x with
  | nil => simp
  | cons y ys ih =>
    rw [List.foldl_cons]
    rcases List.mem_cons.mp (ih (min x y)) with h | h
    · rcases min_choice x y with hc | hc
      · rw [h, hc]
        exact List.mem_cons_self x (y :: ys)
      · rw [h, hc]
        exact List.mem_cons_of_mem x (List.mem_cons_self y ys)
    · exact List.mem_cons_of_mem x (List.mem_cons_of_mem y h)

theorem foldl_min_le (x : Int) (xs : List Int) :
    ∀ y ∈ x :: xs, xs.foldl min x ≤ y := by
  induction xs generalizing x with
  | nil =>
    intro y hy
    rcases List.mem_cons.mp hy with rfl | h
    · exact le_refl y
    · exact absurd h (List.not_mem_nil y)
  | cons z zs ih =>
    intro y hy
    rw [List.foldl_cons]
    have hhead : zs.foldl min (min x z) ≤ min x z :=
      ih (min x z) (min x z) (List.mem_cons_self _ _)
    rcases List.mem_cons.mp hy with rfl | hy'
    · exact le_trans hhead (min_le_left _ _)
    · rcases List.mem_cons.mp hy' with rfl | hy''
      · exact le_trans hhead (min_le_right _ _)
      · exact ih (min x z) y (List.mem_cons_of_mem _ hy'')

theorem textBlockKind_paragraph_infos (margin : Int) (b : Block)
    (h : textBlockKind margin b = .paragraph) :
    linesInfo margin b ≠ [] := by
  intro hnil
  unfold textBlockKind at h
  rw [hnil] at h
  by_cases ht : is_table_block b 10 = true
  · rw [if_pos ht] at h
    exact TextBlockKind.noConfusion h
  · rw [if_neg ht] at h
    simp at h

/-- Counterexample to claim C8 as stated: `blankFirstBlock` is emitted as a
plain Paragraph, but the source joins only the lines that are non-blank
after trimming and indents by the first surviving line.  Here the two lines
reconstruct to `" "` (first span x0 = 7) and `"A"` (x0 = 3); with page left
margin 0 the source emits the paragraph `"A"` with indent 3, not the claim's
join of all reconstructed lines (a space, a line break, then the letter)
with indent `7 - 0` taken from the block's first line. -/
theorem claim_C8_counterexample :
    textBlockKind 0 blankFirstBlock = TextBlockKind.paragraph
      ∧ (blankFirstBlock.lines.map (fun l => join_spans l.spans 3))
          = [[' '], ['A']]
      ∧ (match blankFirstBlock.lines with
          | [] => (0 : Int)
          | l :: _ =>
            match l.spans with
            | [] => 0
            | s :: _ => s.bbox.x0) = 7
      ∧ classifyTextBlock 0 blankFirstBlock
          = [StructuredItem.paragraph ['A'] 3]
      ∧ classifyTextBlock 0 blankFirstBlock
          ≠ [StructuredItem.paragraph
              (List.intercalate ['\n']
                (blankFirstBlock.lines.map (fun l => join_spans l.spans 3)))
              (7 - 0)] := by
  refine ⟨by decide, by decide, by decide, by decide, by decide⟩

/-- Claim C8 (amended): the page left margin is the minimum of the first
span's `x0` over all text lines of the page (0 when the page has no text
spans), and a block emitted as a plain Paragraph carries as its translation
unit the NON-BLANK reconstructed lines (those non-empty after trimming
whitespace) joined with a line break, indented by the first such non-blank
line's first span `x0` minus the page left margin. -/
theorem claim_C8_margin_and_paragraph (blocks : List Block) (margin : Int)
    (b : Block) (h : textBlockKind margin b = .paragraph) :
    ((pageAllX blocks = [] → pageLeftMargin blocks = 0)
        ∧ (pageAllX blocks ≠ [] →
            pageLeftMargin blocks ∈ pageAllX blocks
              ∧ ∀ x ∈ pageAllX blocks, pageLeftMargin blocks ≤ x))
      ∧ ∃ p ps, linesInfo margin b = p :: ps
          ∧ classifyTextBlock margin b
              = [StructuredItem.paragraph
                  (List.intercalate ['\n'] ((p :: ps).map Prod.fst))
                  (p.2 - margin)] := by
  constructor
  · unfold pageLeftMargin
    cases hx : pageAllX blocks with
    | nil => exact ⟨fun _ => rfl, fun hne => absurd rfl hne⟩
    | cons x xs =>
      refine ⟨fun hc => List.noConfusion hc, fun _ => ⟨?_, ?_⟩⟩
      · exact foldl_min_mem x xs
      · exact foldl_min_le x xs
  · have hne := textBlockKind_paragraph_infos margin b h
    cases hinfos : linesInfo margin b with
    | nil => exact absurd hinfos hne
    | cons p ps =>
      refine ⟨p, ps, rfl, ?_⟩
      unfold classifyTextBlock
      rw [h, hinfos]
      rfl

/-- Witness for claim C8 at a one-block page whose block is a plain
paragraph of two lines. -/
theorem claim_C8_witness :
    pageLeftMargin [sampleParaBlock] ∈ pageAllX [sampleParaBlock]
      ∧ ∃ p ps, linesInfo 0 sampleParaBlock = p :: ps
          ∧ classifyTextBlock 0 sampleParaBlock
              = [StructuredItem.paragraph
                  (List.intercalate ['\n'] ((p :: ps).map Prod.fst))
                  (p.2 - 0)] := by
  have w := claim_C8_margin_and_paragraph [sampleParaBlock] 0 sampleParaBlock
    (by decide)
  exact ⟨(w.1.2 (by decide)).1, w.2⟩

theorem linesInfo_all_iff (margin : Int) (b : Block) :
    (linesInfo margin b).all (fun p => matchesListMarker p.1) = true ↔
      ∀ l ∈ b.lines, pyStrip (join_spans l.spans 3) = []
        ∨ matchesListMarker (join_spans l.spans 3) = true := by
  rw [List.all_eq_true]
  unfold linesInfo
  constructor
  · intro h l hl
    by_cases hblank : pyStrip (join_spans l.spans 3) = []
    · exact Or.inl hblank
    · refine Or.inr ?_
      have hmem : (join_spans l.spans 3,
          match l.spans with | [] => margin | s :: _ => s.bbox.x0)
          ∈ b.lines.filterMap (fun l =>
            let t := join_spans l.spans 3
            if pyStrip t ≠ [] then
              some (t, match l.spans with | [] => margin | s :: _ => s.bbox.x0)
            else none) := by
        apply List.mem_filterMap.mpr
        refine ⟨l, hl, ?_⟩
        simp only [if_pos hblank]
      exact h _ hmem
  · intro h p hp
    rcases List.mem_filterMap.mp hp with ⟨l, hl, hf⟩
    simp only [] at hf
    by_cases hblank : pyStrip (join_spans l.spans 3) = []
    · rw [if_neg (by simpa using hblank)] at hf
      exact Option.noConfusion hf
    · rw [if_pos hblank] at hf
      rcases h l hl with hc | hc
      · exact absurd hc hblank
      · have hp1 : p.1 = join_spans l.spans 3 := by
          rw [← Option.some_inj.mp hf]
        rw [hp1]
        exact hc

theorem linesInfo_ne_nil_iff (margin : Int) (b : Block) :
    linesInfo margin b ≠ [] ↔
      ∃ l ∈ b.lines, pyStrip (join_spans l.spans 3) ≠ [] := by
  unfold linesInfo
  rw [ne_eq, List.filterMap_eq_nil_iff]
  constructor
  · intro h
    by_contra hc
    push_neg at hc
    apply h
    intro l hl
    simp only [if_neg (not_not_intro (hc l hl))]
  · rintro ⟨l, hl, hblank⟩ hall
    have := hall l hl
    rw [if_pos hblank] at this
    exact Option.noConfusion this

theorem marker_patterns_disjoint (s : List Char) :
    matchNumberedMarker s = none ∨ matchBulletMarker s = none := by
  unfold matchNumberedMarker matchBulletMarker
  cases hd : s.dropWhile pySpace with
  | nil =>
    left
    simp [hd]
  | cons c s2 =>
    by_cases hdig : c.isDigit = true
    · right
      have hnb : isBulletChar c = false := by
        by_contra hcon
        have hb : isBulletChar c = true := by simpa using hcon
        have hcs : c = '•' ∨ c = '-' ∨ c = '*' := by
          simpa [isBulletChar, or_assoc] using hb
        rcases hcs with rfl | rfl | rfl
        · exact absurd hdig (by decide)
        · exact absurd hdig (by decide)
        · exact absurd hdig (by decide)
      simp [hd, hnb]
    · left
      simp [hd, List.takeWhile_cons, hdig]

theorem textBlockKind_list_iff (margin : Int) (b : Block)
    (htable : is_table_block b 10 = false)
    (hne : linesInfo margin b ≠ []) :
    textBlockKind margin b = .list ↔
      (linesInfo margin b).all (fun p => matchesListMarker p.1) = true := by
  unfold textBlockKind
  rw [htable]
  simp only [Bool.false_eq_true, if_false]
  rw [if_neg (by simpa [List.isEmpty_iff] using hne)]
  by_cases hall : (linesInfo margin b).all (fun p => matchesListMarker p.1) = true
  · rw [if_pos hall]
    simp [hall]
  · rw [if_neg hall]
    constructor
    · intro hcontra
      exact TextBlockKind.noConfusion hcontra
    · intro hforall
      exact absurd hforall hall

/-- Counterexample to claim C4 as stated: `mixedBlock` fails the Table
Heuristic and the source classifies it as a list, yet its second line
reconstructs to the non-empty string `" "`, which matches neither marker
pattern — the source requires the marker only on lines that are non-blank
after trimming, not on every non-empty line. -/
theorem claim_C4_counterexample :
    is_table_block mixedBlock 10 = false
      ∧ textBlockKind 0 mixedBlock = .list
      ∧ ¬ (∀ l ∈ mixedBlock.lines, join_spans l.spans 3 ≠ [] →
            matchesListMarker (join_spans l.spans 3) = true) := by
  refine ⟨by decide, by decide, ?_⟩
  intro hall
  have h2 := hall ⟨[blankSpan]⟩ (by decide)
  exact absurd (h2 (by decide)) (by decide)

/-- Claim C4 (amended): a text block that failed the Table Heuristic and has
at least one non-blank reconstructed line is classified as a list iff every
reconstructed line that is non-blank (non-empty after trimming whitespace)
matches the numbered or the bulleted marker pattern, mixed kinds allowed; on
acceptance every kept line yields a `ListItem` whose marker is stripped
(first match only) and which is tagged `Numbered` or `Bulleted` according to
its own matched pattern — the numbered pattern is checked first, and no line
matches both patterns. -/
theorem claim_C4_list_heuristic (margin : Int) (b : Block)
    (htable : is_table_block b 10 = false)
    (hne : ∃ l ∈ b.lines, pyStrip (join_spans l.spans 3) ≠ []) :
    (textBlockKind margin b = .list ↔
        ∀ l ∈ b.lines, pyStrip (join_spans l.spans 3) = []
          ∨ matchesListMarker (join_spans l.spans 3) = true)
      ∧ (textBlockKind margin b = .list →
          classifyTextBlock margin b
            = (linesInfo margin b).map (listItemOfLine margin))
      ∧ (∀ t : List Char, ∀ fx : Int, ∀ r : List Char,
          matchNumberedMarker t = some r →
            listItemOfLine margin (t, fx)
              = .listItem (pyStrip r) (fx - margin) (some .numbered))
      ∧ (∀ t : List Char, ∀ fx : Int, ∀ r : List Char,
          matchNumberedMarker t = none → matchBulletMarker t = some r →
            listItemOfLine margin (t, fx)
              = .listItem (pyStrip r) (fx - margin) (some .bulleted))
      ∧ (∀ s : List Char,
          matchNumberedMarker s = none ∨ matchBulletMarker s = none) := by
  have hinfos : linesInfo margin b ≠ [] :=
    (linesInfo_ne_nil_iff margin b).mpr hne
  refine ⟨?_, ?_, ?_, ?_, marker_patterns_disjoint⟩
  · rw [textBlockKind_list_iff margin b htable hinfos]
    exact linesInfo_all_iff margin b
  · intro h
    unfold classifyTextBlock
    rw [h]
  · intro t fx r h
    unfold listItemOfLine
    rw [h]
  · intro t fx r hn h
    unfold listItemOfLine
    rw [hn, h]

/-- Witness for the amended claim C4 at a concrete two-line numbered list
block. -/
theorem claim_C4_witness :
    textBlockKind 0 sampleListBlock = .list
      ∧ classifyTextBlock 0 sampleListBlock
          = (linesInfo 0 sampleListBlock).map (listItemOfLine 0) := by
  have w := claim_C4_list_heuristic 0 sampleListBlock (by decide)
    ⟨⟨[⟨"1. First".toList, ⟨0, 0, 10, 1⟩⟩]⟩, by decide, by decide⟩
  have hk : textBlockKind 0 sampleListBlock = .list := by decide
  exact ⟨hk, w.2.1 hk⟩

end PdfTranslate
